import Mathlib

/-!
Shallow embedding of the downloader core of `src/src/utils/downloader.py`
(class `Downloader`): the range planner inside `download()`, the header and
file-system effects of `fetch()`, the orchestration decision of `download()`
versus `download_single_threaded()`, the attribute (Transfer Descriptor)
state, and the session-close behaviour of `asyncstart()` / `start()`.

Definitions come first, theorems follow.
-/

namespace Downloader

/-! ### Range planning (`download()`, lines 189-195)

```
start = -1
base = int(length / self.threads)
ranges = []
for _ in range(self.threads - 1):
    ranges.append((start + 1, start + base))
    start += base
ranges.append((start + 1, length))
```
-/

/-- The loop of lines 192-195: `n` remaining iterations of the `for` body
(each appends `(start + 1, start + base)` and advances `start` by `base`),
followed by the final `ranges.append((start + 1, length))`. -/
def planLoop (base L : Int) : Nat → Int → List (Int × Int)
  | 0, s => [(s + 1, L)]
  | n + 1, s => (s + 1, s + base) :: planLoop base L n (s + base)

/-- Line 190, `base = int(length / self.threads)`.  Python raises
`ZeroDivisionError` when `threads = 0`; for `threads ≥ 1` and non-negative
`length` the truncated quotient is `⌊length / threads⌋`, i.e. `Nat` floor
division. -/
def baseWidth (length threads : Nat) : Option Nat :=
  if threads = 0 then none else some (length / threads)

/-- The list `ranges` computed by `download()` for a probed Content-Length
`length` and thread count `threads` (meaningful for `threads ≥ 1`, where the
division of line 190 succeeds). -/
def ranges (length threads : Nat) : List (Int × Int) :=
  planLoop ((length / threads : Nat) : Int) (length : Int) (threads - 1) (-1)

/-! ### Orchestration of `download()` (lines 174-206)

`download()` issues a HEAD probe; if the response lacks a `Content-Length`
header it calls `download_single_threaded()` and returns (lines 178-181);
otherwise it parses `length`, pre-sizes the destination file with `length`
zero bytes (lines 186-187), computes `base` and the ranges (lines 189-195),
and launches one `fetch` worker per range (lines 196-206). -/

/-- A Python exception relevant to the orchestration model. -/
inductive PyError where
  | zeroDivisionError
deriving DecidableEq, Repr

/-- An observable action of `download()`. -/
inductive DlAction where
  /-- the single-stream path `download_single_threaded()` was invoked
  (line 180). -/
  | singleStream
  /-- the destination file was pre-sized to `length` zero bytes
  (lines 186-187). -/
  | presizeFile (length : Nat)
  /-- a ranged `fetch` worker was launched for range `r` (lines 200-206). -/
  | fetchWorker (r : Int × Int)
deriving DecidableEq, Repr

/-- The sequence of actions `download()` performs, together with the exception
it raises (if any), as a function of the probed `Content-Length` (`none` when
the HEAD response lacks the header) and `self.threads`.  With a
`Content-Length` present, the pre-sizing of lines 186-187 happens first; then
line 190 divides by `self.threads`, raising `ZeroDivisionError` when
`threads = 0` before any worker is launched. -/
def downloadRun (contentLength : Option Nat) (threads : Nat) :
    List DlAction × Option PyError :=
  match contentLength with
  | none => ([DlAction.singleStream], none)
  | some length =>
      match baseWidth length threads with
      | none => ([DlAction.presizeFile length], some PyError.zeroDivisionError)
      | some base =>
          (DlAction.presizeFile length ::
            (planLoop (base : Int) (length : Int) (threads - 1) (-1)).map
              DlAction.fetchWorker,
            none)

/-! ### Session lifecycle (`start()` lines 96-103, `asyncstart()` lines 105-113)

```
async def asyncstart(self) -> None:
    await self.download()
    if self.new_session:
        await self.session.close()
```

`start()` runs `asyncstart()` on the event loop to completion, so its
close-behaviour is that of `asyncstart()`.  There is no `try`/`finally`: if
`await self.download()` raises, the exception propagates immediately and the
`if self.new_session` block is never reached. -/

/-- The effect of `asyncstart()` given the ownership flag `new_session` and
the outcome `dl` of `await self.download()`: returns the number of times
`self.session.close()` is awaited, paired with the propagated outcome. -/
def asyncstartCloses (new_session : Bool) (dl : Except Unit Unit) :
    Nat × Except Unit Unit :=
  match dl with
  | Except.error e => (0, Except.error e)
  | Except.ok _ => ((if new_session then 1 else 0), Except.ok ())

/-- The effect of `start()` (line 103 runs `asyncstart()` to completion). -/
def startCloses (new_session : Bool) (dl : Except Unit Unit) :
    Nat × Except Unit Unit :=
  asyncstartCloses new_session dl

/-! ### The header effect of `fetch()` (lines 128-135)

```
if "headers" not in self.aiohttp_args:
    self.aiohttp_args["headers"] = {}
self.aiohttp_args["headers"]["Range"] = (
    f"bytes=..." with the two slots of filerange interpolated
)
```
-/

/-- The second slot of `filerange`: an integer byte index as planned by
`download()`, or the empty string of the default argument `(0, "")`
(line 115). -/
inductive RangeEnd where
  | num (n : Int)
  | empty
deriving DecidableEq, Repr

/-- How the f-string of lines 130-132 renders the second slot of
`filerange`. -/
def RangeEnd.render : RangeEnd → String
  | RangeEnd.num n => toString n
  | RangeEnd.empty => ""

/-- The f-string of lines 130-132: `bytes=`, then the rendered first slot of
`filerange`, a hyphen, and the rendered second slot. -/
def rangeHeaderValue (s : Int) (e : RangeEnd) : String :=
  "bytes=" ++ toString s ++ "-" ++ e.render

/-- Lookup in a Python `dict` of strings (first binding wins; the dicts the
code builds have unique keys). -/
def dictGet (m : List (String × String)) (k : String) : Option String :=
  match m with
  | [] => none
  | p :: t => if p.1 = k then some p.2 else dictGet t k

/-- Python assignment `d[k] = v` on a string `dict`: replaces the binding of
`k` in place if present, otherwise appends it (insertion order preserved). -/
def dictSet : List (String × String) → String → String → List (String × String)
  | [], k, v => [(k, v)]
  | p :: t, k, v => if p.1 = k then (k, v) :: t else p :: dictSet t k v

/-- The request-options mapping `aiohttp_args`: the request `method`
(defaulted to `"GET"` in `__init__`, lines 77-78 and 92-93) and the optional
`"headers"` entry; the other request options are passed through untouched by
every operation and are not modelled. -/
structure Args where
  method : String
  headers : Option (List (String × String))
deriving DecidableEq, Repr

/-- The mutation lines 128-132 of `fetch()` perform on `self.aiohttp_args`:
create the `"headers"` dict if absent, then assign its `"Range"` key to the
rendered range header. -/
def fetchArgs (a : Args) (s : Int) (e : RangeEnd) : Args :=
  { a with
    headers := some (dictSet (a.headers.getD []) "Range" (rangeHeaderValue s e)) }

/-- The default `filerange` argument of `fetch` (line 115): `(0, "")`. -/
def fetchDefaultRange : Int × RangeEnd := (0, RangeEnd.empty)

/-! ### The destination-file effect of `fetch()` (lines 127, 136-141)

`fetch` opens `self.file` with `aiofiles.open(self.file, "wb")`: mode `"wb"`
truncates the file to zero length on open.  It then seeks to the first slot
of `filerange` and writes the response chunks sequentially. -/

/-- Mode `"wb"` open (line 127): the file is truncated to zero length. -/
def openWb (_f : List Nat) : List Nat := []

/-- Writing `data` at byte position `pos` of file contents `f`; a position
past end-of-file zero-fills the gap (POSIX seek-past-EOF semantics). -/
def writeAt (f : List Nat) (pos : Nat) (data : List Nat) : List Nat :=
  (f.take pos ++ List.replicate (pos - f.length) 0) ++ data ++
    f.drop (pos + data.length)

/-- The loop of lines 138-141: each chunk is written at the current position,
which advances by the chunk's length. -/
def writeChunks (f : List Nat) (pos : Nat) : List (List Nat) → List Nat
  | [] => f
  | c :: cs => writeChunks (writeAt f pos c) (pos + c.length) cs

/-- The destination-file effect of one `fetch(progress, filerange)` call whose
response body arrives as `chunks`: re-open in truncating `"wb"` mode
(line 127), seek to the range's start (lines 136-137), then write the chunks
sequentially (lines 138-141). -/
def fetchFile (f : List Nat) (start : Nat) (chunks : List (List Nat)) : List Nat :=
  writeChunks (openWb f) start chunks

/-- One legal cooperative schedule of the `asyncio.gather` fan-out
(lines 200-206): the fetch workers run to completion one after another in
range order. -/
def runFetches (f : List Nat) : List ((Int × Int) × List (List Nat)) → List Nat
  | [] => f
  | (r, chunks) :: rest => runFetches (fetchFile f r.1.toNat chunks) rest

/-- The destination-file contents after the multi-range path of `download()`
under the `runFetches` schedule, starting from file contents `f0`: pre-size
to `length` zero bytes (lines 186-187, an open in `"wb"` mode followed by one
write), then one worker per planned range, `bodies` giving each worker's
response chunks in range order. -/
def downloadMultiFile (length threads : Nat) (bodies : List (List (List Nat)))
    (f0 : List Nat) : List Nat :=
  runFetches (writeAt (openWb f0) 0 (List.replicate length 0))
    ((ranges length threads).zip bodies)

/-! ### The Downloader's attributes as a Transfer Descriptor

`__init__` (lines 77-94) stores `url`, `file`, `threads`, `session` (with the
`new_session` ownership flag), `progress_bar` and `aiohttp_args`
(`create_dir` only drives directory creation at construction).  `fetch`
mutates `self.aiohttp_args` in place (lines 128-132); `download` copies
`aiohttp_args` before forcing `method = "HEAD"` on the copy (lines 174-175),
so the HEAD probe itself leaves the attributes alone, but the fan-out calls
`fetch` once per range; `download_single_threaded`, `start` and `asyncstart`
assign no attribute. -/

/-- The attribute state of one `Downloader` instance after `__init__`
(the session attribute is represented by an identifying tag, `sessionId`). -/
structure DState where
  url : String
  file : String
  threads : Nat
  sessionId : Nat
  new_session : Bool
  progress_bar : Bool
  create_dir : Bool
  aiohttp_args : Args
deriving DecidableEq, Repr

/-- The effect of one `fetch(progress, filerange)` call on the attributes:
lines 128-132 mutate `self.aiohttp_args`; no other attribute is assigned. -/
def fetchState (st : DState) (fr : Int × RangeEnd) : DState :=
  { st with aiohttp_args := fetchArgs st.aiohttp_args fr.1 fr.2 }

/-- The effect of `download()` on the attributes along the multi-range path:
line 174's `.copy()` confines the `"HEAD"` override to the copy, and the
fan-out calls `fetch` once per planned range. -/
def downloadState (st : DState) (rs : List (Int × Int)) : DState :=
  rs.foldl (fun s r => fetchState s (r.1, RangeEnd.num r.2)) st

/-- Every attribute other than the `"Range"` entry of
`aiohttp_args["headers"]`: used to state what `fetch` leaves unchanged. -/
def nonRangeView (st : DState) :
    String × String × Nat × Nat × Bool × Bool × Bool × String :=
  (st.url, st.file, st.threads, st.sessionId, st.new_session, st.progress_bar,
    st.create_dir, st.aiohttp_args.method)

/-! ## Theorems -/

theorem planLoop_closed (base L : Int) :
    ∀ (n : Nat) (s : Int),
      planLoop base L n s =
        (List.range n).map
            (fun (i : Nat) => (s + 1 + (i : Int) * base, s + ((i : Int) + 1) * base)) ++
          [(s + (n : Int) * base + 1, L)]
  | 0, s => by simp [planLoop]
  | n + 1, s => by
      rw [planLoop, planLoop_closed base L n (s + base), List.range_succ_eq_map,
        List.map_cons, List.map_map]
      congr 1
      · simp only [Prod.mk.injEq]
        constructor <;> push_cast <;> ring
      congr 1
      · apply List.map_congr_left
        intro i _
        simp only [Function.comp_apply, Prod.mk.injEq]
        constructor <;> push_cast <;> ring
      · simp only [List.cons.injEq, Prod.mk.injEq, and_true]
        push_cast
        ring_nf

theorem planLoop_length (base L : Int) :
    ∀ (n : Nat) (s : Int), (planLoop base L n s).length = n + 1
  | 0, _ => rfl
  | n + 1, s => by
      simp [planLoop, planLoop_length base L n (s + base)]

theorem ranges_length (length threads : Nat) :
    (ranges length threads).length = threads - 1 + 1 := by
  simp [ranges, planLoop_length]

theorem ranges_get?_lt (length threads : Nat) (i : Nat) (hi : i < threads - 1) :
    (ranges length threads).get? i =
      some ((i : Int) * ((length / threads : Nat) : Int),
            ((i : Int) + 1) * ((length / threads : Nat) : Int) - 1) := by
  rw [ranges, planLoop_closed]
  rw [List.get?_append (by simpa using hi)]
  rw [List.get?_map, List.get?_range hi]
  simp only [Option.map_some']
  congr 1
  simp only [Prod.mk.injEq]
  constructor <;> ring

theorem ranges_get?_last (length threads : Nat) :
    (ranges length threads).get? (threads - 1) =
      some ((((threads - 1 : Nat)) : Int) * ((length / threads : Nat) : Int),
            (length : Int)) := by
  rw [ranges, planLoop_closed]
  rw [List.get?_append_right (by simp)]
  simp only [List.length_map, List.length_range]
  simp only [Nat.sub_self, List.get?]
  congr 1
  simp only [Prod.mk.injEq, and_true]
  ring_nf

theorem ranges_get?_none (length threads : Nat) (i : Nat) (hi : threads - 1 < i) :
    (ranges length threads).get? i = none := by
  rw [List.get?_eq_none]
  rw [ranges_length]
  omega

theorem mul_sep {x y b : Int} (hb : 0 ≤ b) (hxy : x + 1 ≤ y) :
    (x + 1) * b - 1 < y * b := by
  have := mul_le_mul_of_nonneg_right hxy hb
  linarith

/-- C1: for every `total_length ≥ 0` and `threads ≥ 1`, the range-planning step
of `download()` produces exactly `threads` ranges; the first range starts at 0;
the last range's end equals `total_length`; consecutive ranges are contiguous
(`range[i].end + 1 = range[i+1].start`); no two ranges' byte spans overlap; and
each of the first `threads - 1` ranges spans `base = ⌊total_length / threads⌋`
bytes (the final range absorbing the remainder up to `total_length`). -/
theorem download_partition_correct (length threads : Nat) (h : 1 ≤ threads) :
    (ranges length threads).length = threads ∧
    (∀ p ∈ (ranges length threads).get? 0, p.1 = 0) ∧
    (∀ p ∈ (ranges length threads).get? (threads - 1), p.2 = (length : Int)) ∧
    (∀ (i : Nat), i + 1 < threads →
      ∀ p q, (ranges length threads).get? i = some p →
        (ranges length threads).get? (i + 1) = some q → p.2 + 1 = q.1) ∧
    (∀ (i j : Nat), i < j → j < threads →
      ∀ p q, (ranges length threads).get? i = some p →
        (ranges length threads).get? j = some q →
        ∀ b : Int, ¬ (p.1 ≤ b ∧ b ≤ p.2 ∧ q.1 ≤ b ∧ b ≤ q.2)) ∧
    (∀ (i : Nat), i + 1 < threads →
      ∀ p, (ranges length threads).get? i = some p →
        p.2 - p.1 + 1 = ((length / threads : Nat) : Int)) := by
  have hb : (0 : Int) ≤ ((length / threads : Nat) : Int) := Int.natCast_nonneg _
  refine ⟨?_, ?_, ?_, ?_, ?_, ?_⟩
  · rw [ranges_length]; omega
  · intro p hp
    rcases Nat.lt_or_ge 0 (threads - 1) with h0 | h0
    · rw [ranges_get?_lt length threads 0 h0] at hp
      simp only [Option.mem_def, Option.some.injEq] at hp
      subst hp
      simp
    · have h1 : threads - 1 = 0 := by omega
      rw [← h1, ranges_get?_last length threads] at hp
      simp only [Option.mem_def, Option.some.injEq] at hp
      subst hp
      simp [h1]
  · intro p hp
    rw [ranges_get?_last length threads] at hp
    simp only [Option.mem_def, Option.some.injEq] at hp
    subst hp
    rfl
  · intro i hi p q hp hq
    rcases Nat.lt_or_ge (i + 1) (threads - 1) with h1 | h1
    · rw [ranges_get?_lt length threads i (by omega)] at hp
      rw [ranges_get?_lt length threads (i + 1) h1] at hq
      simp only [Option.some.injEq] at hp hq
      subst hp; subst hq
      push_cast
      ring
    · have h2 : i + 1 = threads - 1 := by omega
      rw [ranges_get?_lt length threads i (by omega)] at hp
      rw [h2, ranges_get?_last length threads] at hq
      simp only [Option.some.injEq] at hp hq
      subst hp; subst hq
      rw [← h2]
      push_cast
      ring
  · intro i j hij hj p q hp hq b hb'
    obtain ⟨hb1, hb2, hb3, hb4⟩ := hb'
    have hlt : p.2 < q.1 := by
      rcases Nat.lt_or_ge j (threads - 1) with h1 | h1
      · rw [ranges_get?_lt length threads i (by omega)] at hp
        rw [ranges_get?_lt length threads j h1] at hq
        simp only [Option.some.injEq] at hp hq
        subst hp; subst hq
        exact mul_sep hb (by exact_mod_cast hij)
      · have h2 : j = threads - 1 := by omega
        rw [ranges_get?_lt length threads i (by omega)] at hp
        rw [h2, ranges_get?_last length threads] at hq
        simp only [Option.some.injEq] at hp hq
        subst hp; subst hq
        refine mul_sep hb ?_
        have : i + 1 ≤ threads - 1 := by omega
        exact_mod_cast this
    linarith
  · intro i hi p hp
    rw [ranges_get?_lt length threads i (by omega)] at hp
    simp only [Option.some.injEq] at hp
    subst hp
    ring

theorem download_partition_correct_witness :
    1 ≤ 4 ∧
    ((ranges 1000 4).length = 4 ∧
    (∀ p ∈ (ranges 1000 4).get? 0, p.1 = 0) ∧
    (∀ p ∈ (ranges 1000 4).get? (4 - 1), p.2 = ((1000 : Nat) : Int)) ∧
    (∀ (i : Nat), i + 1 < 4 →
      ∀ p q, (ranges 1000 4).get? i = some p →
        (ranges 1000 4).get? (i + 1) = some q → p.2 + 1 = q.1) ∧
    (∀ (i j : Nat), i < j → j < 4 →
      ∀ p q, (ranges 1000 4).get? i = some p →
        (ranges 1000 4).get? j = some q →
        ∀ b : Int, ¬ (p.1 ≤ b ∧ b ≤ p.2 ∧ q.1 ≤ b ∧ b ≤ q.2)) ∧
    (∀ (i : Nat), i + 1 < 4 →
      ∀ p, (ranges 1000 4).get? i = some p →
        p.2 - p.1 + 1 = ((1000 / 4 : Nat) : Int))) :=
  ⟨by decide, download_partition_correct 1000 4 (by decide)⟩

/-- C6 counterexample: with `total_length = 1` and `threads = 2` the code
computes `base = int(1 / 2) = 0`, so the first appended range is
`(start + 1, start + base) = (0, -1)`: its end is strictly below its start
(and below 0), refuting `end ≥ start`. -/
theorem range_end_below_start_counterexample :
    ranges 1 2 = [(0, -1), (0, 1)] ∧
    ((ranges 1 2).get? 0 = some (0, -1) ∧ ¬ ((0 : Int) ≤ -1)) := by
  decide

/-- C6 amended: every range `(start, end)` produced by the range-planning step
of `download()` (for `threads ≥ 1`) satisfies `start ≥ 0` and
`end ≥ start - 1`; the bound `end ≥ start` holds for the final range always,
and for all ranges whenever `threads ≤ total_length` (so that
`base = ⌊total_length / threads⌋ ≥ 1`), but fails for the first `threads - 1`
ranges when `total_length < threads` (where `base = 0` makes them zero-length
with `end = start - 1 = -1`). -/
theorem range_bounds (length threads : Nat) (h : 1 ≤ threads) :
    ∀ (i : Nat) (p : Int × Int), (ranges length threads).get? i = some p →
      0 ≤ p.1 ∧ p.1 - 1 ≤ p.2 ∧
      (i = threads - 1 → p.1 ≤ p.2) ∧
      (threads ≤ length → p.1 ≤ p.2) := by
  intro i p hp
  have hb : (0 : Int) ≤ ((length / threads : Nat) : Int) := Int.natCast_nonneg _
  rcases Nat.lt_or_ge i (threads - 1) with h1 | h1
  · rw [ranges_get?_lt length threads i h1] at hp
    simp only [Option.some.injEq] at hp
    subst hp
    dsimp only
    have hi : (0 : Int) ≤ (i : Int) := Int.natCast_nonneg _
    refine ⟨mul_nonneg hi hb, by nlinarith, fun hil => absurd hil (by omega), ?_⟩
    intro htl
    have hb1 : (1 : Int) ≤ ((length / threads : Nat) : Int) := by
      have : 1 ≤ length / threads := (Nat.one_le_div_iff (by omega)).mpr htl
      exact_mod_cast this
    nlinarith
  · rcases Nat.lt_or_ge (threads - 1) i with h2 | h2
    · rw [ranges_get?_none length threads i h2] at hp
      exact absurd hp (by simp)
    · have h3 : i = threads - 1 := by omega
      rw [h3, ranges_get?_last length threads] at hp
      simp only [Option.some.injEq] at hp
      subst hp
      dsimp only
      have hmul : (threads - 1 : Nat) * (length / threads) ≤ length := by
        calc (threads - 1 : Nat) * (length / threads)
            ≤ threads * (length / threads) := Nat.mul_le_mul_right _ (by omega)
          _ ≤ length := Nat.mul_div_le length threads
      have hcast : (((threads - 1 : Nat) : Int)) * ((length / threads : Nat) : Int)
          ≤ (length : Int) := by exact_mod_cast hmul
      have hpos : (0 : Int) ≤ (((threads - 1 : Nat) : Int)) * ((length / threads : Nat) : Int) :=
        mul_nonneg (Int.natCast_nonneg _) hb
      exact ⟨hpos, by linarith, fun _ => hcast, fun _ => hcast⟩

theorem range_bounds_witness :
    1 ≤ 4 ∧
    (∀ (i : Nat) (p : Int × Int), (ranges 10 4).get? i = some p →
      0 ≤ p.1 ∧ p.1 - 1 ≤ p.2 ∧
      (i = 4 - 1 → p.1 ≤ p.2) ∧
      (4 ≤ 10 → p.1 ≤ p.2)) :=
  ⟨by decide, range_bounds 10 4 (by decide)⟩

/-- C5: whenever the HEAD probe's response lacks a `Content-Length` header,
`download()` takes the single-stream fallback (`download_single_threaded`) and
returns: its action trace is exactly the single-stream transfer — so no byte
range is computed, the destination file is not pre-sized, and no ranged fetch
worker is launched — and no error is raised. -/
theorem download_fallback_on_missing_length (threads : Nat) :
    downloadRun none threads = ([DlAction.singleStream], none) := rfl

/-- C9: when `threads = 0` and the HEAD probe reports a `Content-Length`,
`download()` raises `ZeroDivisionError` at line 190 (`int(length / 0)`) after
pre-sizing the file but before launching any worker; for every `threads ≥ 1`
the division succeeds and no `ZeroDivisionError` is raised, so under the
spec's precondition that concurrency is positive this branch is
unreachable. -/
theorem download_zero_threads_division (length : Nat) (threads : Nat)
    (h : 1 ≤ threads) :
    downloadRun (some length) 0 =
      ([DlAction.presizeFile length], some PyError.zeroDivisionError) ∧
    (downloadRun (some length) threads).2 = none := by
  constructor
  · rfl
  · simp only [downloadRun, baseWidth, if_neg (by omega : ¬ threads = 0)]

theorem download_zero_threads_division_witness :
    1 ≤ 4 ∧
    (downloadRun (some 1000) 0 =
      ([DlAction.presizeFile 1000], some PyError.zeroDivisionError) ∧
    (downloadRun (some 1000) 4).2 = none) :=
  ⟨by decide, download_zero_threads_division 1000 4 (by decide)⟩

/-- C2 counterexample: with an internally created session
(`new_session = true`), when `download()` raises, `asyncstart()` performs zero
session closes — not one — because the close is skipped on the exception
path. -/
theorem session_close_counterexample :
    (asyncstartCloses true (Except.error ())).1 = 0 ∧
    ¬ (asyncstartCloses true (Except.error ())).1 = 1 ∧
    (startCloses true (Except.error ())).1 = 0 := by
  decide

/-- C2 amended: through `start()` or `asyncstart()`, when an external session
was supplied (`new_session = false`) the session is never closed; when no
external session was supplied (`new_session = true`) the internally created
session is closed exactly once if `download()` returns normally, but is not
closed at all if `download()` raises (there is no `try`/`finally`, so the
close is skipped on the exception path); the outcome of `download()` is
propagated unchanged in every case. -/
theorem session_close_behaviour (dl : Except Unit Unit) :
    (asyncstartCloses false dl).1 = 0 ∧
    (asyncstartCloses true dl).1 = (match dl with
      | Except.ok _ => 1
      | Except.error _ => 0) ∧
    (asyncstartCloses true dl).2 = dl ∧
    (startCloses false dl).1 = 0 ∧
    (startCloses true dl).1 = (match dl with
      | Except.ok _ => 1
      | Except.error _ => 0) := by
  cases dl <;> simp [asyncstartCloses, startCloses]

theorem dictGet_dictSet (m : List (String × String)) (k v k' : String) :
    dictGet (dictSet m k v) k' = if k' = k then some v else dictGet m k' := by
  induction m with
  | nil =>
      by_cases h : k' = k
      · subst h; simp [dictSet, dictGet]
      · simp [dictSet, dictGet, h, show ¬ (k = k') from fun hh => h hh.symm]
  | cons p t ih =>
      by_cases hp : p.1 = k
      · by_cases h : k' = k
        · subst h
          simp [dictSet, dictGet, hp]
        · simp [dictSet, dictGet, hp, h,
            show ¬ (k = k') from fun hh => h hh.symm,
            show ¬ (p.1 = k') from fun hh => h (hh.symm.trans hp)]
      · by_cases h : k' = k
        · subst h
          simp [dictSet, dictGet, hp, ih,
            show ¬ (p.1 = k') from hp]
        · simp [dictSet, dictGet, hp, h, ih]

/-- C7: a fetch worker assigned range `(start, end)` sets the request's
`"Range"` header to exactly `"bytes=<start>-<end>"`, overwriting any
caller-supplied `"Range"` header held in `aiohttp_args` (the lookup after the
assignment returns the rendered value whatever `a` contained); in particular
the range `(100, 200)` yields `"bytes=100-200"`. -/
theorem fetch_range_header (a : Args) (s e : Int) :
    dictGet ((fetchArgs a s (RangeEnd.num e)).headers.getD []) "Range" =
      some ("bytes=" ++ toString s ++ "-" ++ toString e) ∧
    dictGet ((fetchArgs a 100 (RangeEnd.num 200)).headers.getD []) "Range" =
      some "bytes=100-200" := by
  constructor
  · simp [fetchArgs, dictGet_dictSet, rangeHeaderValue, RangeEnd.render]
  · simp only [fetchArgs, Option.getD_some, dictGet_dictSet, if_pos rfl]
    rfl

/-- C3 at the failing input: the destination file holds `[1, 1, 1, 1]` and
`fetch` is assigned range `(2, 3)` with response body `[7, 7]`.  The claim
says bytes 0 and 1 stay `1`; the code's `"wb"` open truncates the whole file,
so they become `0`. -/
theorem fetch_not_frame_preserving :
    fetchFile [1, 1, 1, 1] 2 [[7, 7]] = [0, 0, 7, 7] ∧
    (fetchFile [1, 1, 1, 1] 2 [[7, 7]]).get? 0 = some 0 ∧
    [1, 1, 1, 1].get? 0 = some 1 := by decide

/-- C4 at the failing input: `total_length = 4`, `threads = 2` (planned ranges
`(0, 1)` and `(2, 4)`), range bodies `[1, 2]` and `[3, 4]`, workers completing
in range order.  The concatenation of the bodies is `[1, 2, 3, 4]`, but the
second worker's truncating `"wb"` open erases the first worker's bytes, so the
file ends as `[0, 0, 3, 4]` (size 4, contents wrong). -/
theorem download_not_byte_exact :
    downloadMultiFile 4 2 [[[1, 2]], [[3, 4]]] [] = [0, 0, 3, 4] ∧
    List.flatten [[1, 2], [3, 4]] = [1, 2, 3, 4] ∧
    downloadMultiFile 4 2 [[[1, 2]], [[3, 4]]] [] ≠ [1, 2, 3, 4] ∧
    (downloadMultiFile 4 2 [[[1, 2]], [[3, 4]]] []).length = 4 := by decide

/-- C10: calling `fetch` with its default `filerange = (0, "")` renders the
`Range` header as exactly `"bytes=0-"` (an open-ended range) — also after the
assignment into `aiohttp_args` — seeks to offset 0 (the first slot of the
default), and writes the response body starting at file offset 0. -/
theorem fetch_default_range (a : Args) (f body : List Nat) :
    rangeHeaderValue fetchDefaultRange.1 fetchDefaultRange.2 = "bytes=0-" ∧
    dictGet ((fetchArgs a fetchDefaultRange.1 fetchDefaultRange.2).headers.getD [])
        "Range" = some "bytes=0-" ∧
    fetchDefaultRange.1 = 0 ∧
    fetchFile f fetchDefaultRange.1.toNat [body] = body := by
  refine ⟨rfl, ?_, rfl, ?_⟩
  · simp only [fetchArgs, Option.getD_some, dictGet_dictSet, if_pos rfl]
    rfl
  · simp [fetchFile, writeChunks, writeAt, openWb, fetchDefaultRange]

theorem downloadState_nonRangeView :
    ∀ (rs : List (Int × Int)) (st : DState),
      nonRangeView (downloadState st rs) = nonRangeView st
  | [], _ => rfl
  | r :: rs, st => by
      rw [downloadState, List.foldl_cons]
      have h := downloadState_nonRangeView rs (fetchState st (r.1, RangeEnd.num r.2))
      rw [downloadState] at h
      rw [h]
      rfl

/-- C8 counterexample: `fetch` with range `(100, 200)` mutates
`self.aiohttp_args` — a descriptor field the claim says is never mutated —
by inserting `"Range": "bytes=100-200"` into its headers mapping. -/
theorem descriptor_mutated_counterexample :
    (fetchState
        { url := "u", file := "f", threads := 4, sessionId := 0,
          new_session := true, progress_bar := true, create_dir := true,
          aiohttp_args := { method := "GET", headers := none } }
        (100, RangeEnd.num 200)).aiohttp_args ≠
      ({ method := "GET", headers := none } : Args) := by
  decide

/-- C8 amended: after construction, `url`, `file`, `threads`, `session`,
`progress_bar`, `create_dir` and `aiohttp_args`'s `method` are not mutated by
any operation, and `download`'s HEAD override acts on a copy; but `fetch` (and
hence `download`'s fan-out) mutates `aiohttp_args` in place: it creates the
`"headers"` mapping if absent and overwrites exactly its `"Range"` key with
the assigned range's header value, leaving every other header key unchanged. -/
theorem descriptor_mutation_scope (st : DState) (fr : Int × RangeEnd)
    (k : String) (rs : List (Int × Int)) :
    nonRangeView (fetchState st fr) = nonRangeView st ∧
    dictGet ((fetchState st fr).aiohttp_args.headers.getD []) k =
      (if k = "Range" then some (rangeHeaderValue fr.1 fr.2)
       else dictGet (st.aiohttp_args.headers.getD []) k) ∧
    nonRangeView (downloadState st rs) = nonRangeView st := by
  refine ⟨rfl, ?_, downloadState_nonRangeView rs st⟩
  simp [fetchState, fetchArgs, dictGet_dictSet]

end Downloader
